import Mathlib

/-
Verification of the datschain node against its specification.

The Rust sources are shallowly embedded below.  Machine integers (u8, u64,
usize) are modelled as Nat: none of the verified paths can overflow a u64
(nonces start at 0 and rise by at most 1_000_000; difficulties and
timestamps stay far below 2^64 in every statement proved here), and u64
subtraction appears only under hypotheses that rule out underflow, matching
the Rust code which would panic there.  Strings are Lean Strings; every
string the embedded code builds is ASCII, so `asciiBytes` below agrees with
Rust's `String::into_bytes`.  External collaborators (the Keccak-256 digest,
the serde JSON serializer, the Debug formatter) are opaque per the spec and
are passed in as function parameters.
-/

namespace Datschain

/-- ASCII code of the lowercase hex digit for a nibble, as produced by
Rust's `format!("{:02x}", b)`: digits 0-9 map to 0x30-0x39, 10-15 to
0x61-0x66. -/
def hexByte (n : Nat) : Nat :=
  if n < 10 then 48 + n else 87 + n

def hexChar (n : Nat) : Char :=
  Char.ofNat (hexByte n)

/-- src/utils/conversion.rs `to_hex`: each byte rendered as two lowercase
hex characters. -/
def to_hex (bytes : List Nat) : String :=
  String.mk (bytes.flatMap (fun b => [hexChar (b / 16 % 16), hexChar (b % 16)]))

/-- The byte sequence of an ASCII string (Rust `String::into_bytes` /
`as_bytes` restricted to ASCII content, which is all the embedded code
produces). -/
def asciiBytes (s : String) : List Nat :=
  s.data.map Char.toNat

/-- src/cryptography/hash.rs `transform`: Keccak-256 of the input's bytes,
rendered as a lowercase hex string.  The digest itself is the opaque
external primitive `K`; the Rust code's contribution is the hex rendering. -/
def transform (K : String → List Nat) (input : String) : String :=
  to_hex (K input)

/-- Leading zero bits of a single byte, mirroring the inner mask loop of
`Block::meets_difficulty` (mask starts at 0x80 and shifts right while the
masked bit is zero). -/
def byteMaskZeros (b : Nat) : List Nat → Nat
  | [] => 0
  | m :: ms => if b &&& m = 0 then 1 + byteMaskZeros b ms else 0

def byteLeadingZeros (b : Nat) : Nat :=
  byteMaskZeros b [128, 64, 32, 16, 8, 4, 2, 1]

/-- Leading zero bits of a byte sequence: a zero byte contributes 8 and the
scan continues; the first nonzero byte contributes its own leading zeros
and the scan stops (the `break` in the Rust loop). -/
def countLeadingZeros : List Nat → Nat
  | [] => 0
  | b :: rest => if b = 0 then 8 + countLeadingZeros rest else byteLeadingZeros b

/-- src/chain/block.rs `Block::meets_difficulty`. -/
def meets_difficulty (hash : List Nat) (target_bits : Nat) : Bool :=
  target_bits ≤ countLeadingZeros hash

inductive BlockStatus where
  | Unfinalized
  | Finalized
deriving DecidableEq, Repr, Inhabited

/-- src/chain/transaction.rs `Transaction`. -/
structure Transaction where
  signer : List Nat
  from_addr : List Nat
  to_addr : List Nat
  value : List Nat
  timestamp : Nat
  hash : List Nat
  nonce : Nat
deriving DecidableEq, Repr, Inhabited

/-- src/chain/transaction.rs `Transaction::to_string`. -/
def Transaction.to_string (tx : Transaction) : String :=
  to_hex tx.hash

/-- src/chain/block.rs `Block`. -/
structure Block where
  transactions : List Transaction
  previous_hash : List Nat
  hash : List Nat
  nonce : Nat
  timestamp : Nat
  status : BlockStatus
  height : Nat
deriving DecidableEq, Repr, Inhabited

/-- src/chain/block.rs `Block::build_block_data`: hex of the previous hash,
then the hex digest of the concatenated transaction hash strings, then the
decimal nonce, then the decimal timestamp. -/
def build_block_data (K : String → List Nat) (transactions : List Transaction)
    (previous_hash : List Nat) (nonce timestamp : Nat) : String :=
  let transactions_str := String.join (transactions.map Transaction.to_string)
  let merkle_root := transform K transactions_str
  to_hex previous_hash ++ merkle_root ++ toString nonce ++ toString timestamp

/-- src/chain/block.rs `Block::new`.  `get_timestamp()` is an external
effect; the captured value is passed in as `ts` (the Rust code calls it
twice in close succession; both observations are modelled as the same
instant). -/
def Block.new (K : String → List Nat) (transactions : List Transaction)
    (previous_hash : List Nat) (height : Nat) (ts : Nat) : Block :=
  { transactions := transactions
    previous_hash := previous_hash
    hash := asciiBytes (transform K (build_block_data K transactions previous_hash 0 ts))
    nonce := 0
    timestamp := ts
    status := BlockStatus.Unfinalized
    height := height }

/-- src/chain/block.rs `Block::verify`: recompute the hash from the current
fields, compare with the stored hash, then check difficulty. -/
def Block.verify (K : String → List Nat) (b : Block) (target_bits : Nat) : Bool :=
  let hash := asciiBytes (transform K
    (build_block_data K b.transactions b.previous_hash b.nonce b.timestamp))
  if hash ≠ b.hash then false else meets_difficulty hash target_bits

structure Wallet where
  address : List Nat
  public_key : List Nat
  private_key : List Nat
deriving DecidableEq, Repr, Inhabited

inductive BlockchainError where
  | UnfinalizedBlock
  | InvalidPreviousHash
  | InvalidBlockHeight
  | InvalidProofOfWork
deriving DecidableEq, Repr

/-- src/chain/blockchain.rs `Blockchain`. -/
structure Blockchain where
  blocks : List Block
  accounts : List Wallet
  current_difficulty_bits : Nat
  genesis_hash : List Nat
deriving DecidableEq, Repr

/-- src/chain/blockchain.rs `Blockchain::new`: builds the genesis block
(empty transactions, empty previous hash, height 0) and starts the chain
with it. -/
def Blockchain.new (K : String → List Nat) (current_difficulty_bits : Nat)
    (ts : Nat) : Blockchain :=
  let genesis_block := Block.new K [] [] 0 ts
  { genesis_hash := genesis_block.hash
    blocks := [genesis_block]
    accounts := []
    current_difficulty_bits := current_difficulty_bits }

/-- src/chain/blockchain.rs `Blockchain::add_block`.  The Rust method
mutates `self` and returns `Result<(), BlockchainError>`; the embedding
returns the new state together with the error, the state being unchanged
exactly on the early-return paths. -/
def Blockchain.add_block (K : String → List Nat) (st : Blockchain) (block : Block) :
    Blockchain × Option BlockchainError :=
  if block.status = BlockStatus.Unfinalized then
    (st, some BlockchainError.UnfinalizedBlock)
  else
    let expected_prev_hash := match st.blocks.getLast? with
      | some last_block => last_block.hash
      | none => st.genesis_hash
    if block.previous_hash ≠ expected_prev_hash then
      (st, some BlockchainError.InvalidPreviousHash)
    else if block.height ≠ st.blocks.length then
      (st, some BlockchainError.InvalidBlockHeight)
    else if ¬ block.verify K st.current_difficulty_bits then
      (st, some BlockchainError.InvalidProofOfWork)
    else
      ({ st with blocks := st.blocks ++ [block] }, none)

/-- src/chain/blockchain.rs `Blockchain::add_account`. -/
def Blockchain.add_account (st : Blockchain) (account : Wallet) : Blockchain :=
  { st with accounts := st.accounts ++ [account] }

/-- src/chain/blockchain.rs `Blockchain::get_block_by_height`. -/
def Blockchain.get_block_by_height (st : Blockchain) (height : Nat) : Option Block :=
  st.blocks.get? height

/-- src/chain/block.rs `Block::get_difficulty_target`.  `none` models the
`.expect` panic when the adjustment start block is missing.  The Rust code
computes the mid-band adjustment ratio in f64; for every value reachable in
that branch (`expected/4 ≤ time_diff ≤ expected*4`, so both operands lie in
[302400, 4838400]) the f64 quotient compares against 1.0 exactly as the
rational quotient does, so the ratio is modelled in ℚ. -/
def Block.get_difficulty_target (b : Block) (chain : Blockchain) : Option Nat :=
  let INITIAL_DIFFICULTY_BITS := 16
  let TARGET_BLOCK_TIME := 600
  let DIFFICULTY_ADJUSTMENT_INTERVAL := 2016
  if b.height = 0 then
    some INITIAL_DIFFICULTY_BITS
  else if b.height % DIFFICULTY_ADJUSTMENT_INTERVAL ≠ 0 then
    some chain.current_difficulty_bits
  else
    match chain.get_block_by_height (b.height - DIFFICULTY_ADJUSTMENT_INTERVAL) with
    | none => none
    | some adjustment_start_block =>
      let time_diff := b.timestamp - adjustment_start_block.timestamp
      let expected_time := TARGET_BLOCK_TIME * DIFFICULTY_ADJUSTMENT_INTERVAL
      some (if time_diff < expected_time / 4 then
        chain.current_difficulty_bits + 1
      else if time_diff > expected_time * 4 then
        chain.current_difficulty_bits - 1
      else
        let adjustment : ℚ := (expected_time : ℚ) / (time_diff : ℚ)
        let adjustment := min (max adjustment (1 / 4)) 4
        if 1 < adjustment then chain.current_difficulty_bits + 1
        else if adjustment < 1 then chain.current_difficulty_bits - 1
        else chain.current_difficulty_bits)

/-- src/chain/block_manager.rs `BlockManager`: only the fields the verified
claims touch; `unfinalized_blocks` is the insertion-ordered map, kept as an
association list with unique keys. -/
structure BlockManager where
  pending_transactions : List Transaction
  unfinalized_blocks : List (Nat × Block)
deriving DecidableEq, Repr

/-- src/chain/block_manager.rs `BlockManager::remove_unfinalized_block`. -/
def BlockManager.remove_unfinalized_block (bm : BlockManager) (height : Nat) :
    BlockManager :=
  { bm with unfinalized_blocks := bm.unfinalized_blocks.filter (fun p => p.1 ≠ height) }

/-- The mining loop body of src/chain/block.rs `Block::mine`: increment the
nonce, rebuild the block data, hash, and stop at the first hash meeting the
target.  `fuel` counts the remaining attempts (1_000_000 at the top call). -/
def mineLoop (K : String → List Nat) (b : Block) (target_bits : Nat) :
    Nat → Block × Bool
  | 0 => (b, false)
  | fuel + 1 =>
    let b := { b with nonce := b.nonce + 1 }
    let hash := asciiBytes (transform K
      (build_block_data K b.transactions b.previous_hash b.nonce b.timestamp))
    if meets_difficulty hash target_bits then ({ b with hash := hash }, true)
    else mineLoop K b target_bits fuel

/-- src/chain/block.rs `Block::mine` together with the private `finalize`.
`none` models the panic inside `get_difficulty_target`.  On success the
Rust code runs `self.finalize(self.clone(), ...)`: the clone is taken
*before* `finalize` sets `self.status = Finalized`, so the copy handed to
`add_block` still has status Unfinalized; `remove_unfinalized_block` runs
only when `add_block` returns Ok. -/
def Block.mine (K : String → List Nat) (b : Block) (chain : Blockchain)
    (bm : BlockManager) : Option (Bool × Block × Blockchain × BlockManager) :=
  match b.get_difficulty_target chain with
  | none => none
  | some target_bits =>
    let (b, success) := mineLoop K b target_bits 1000000
    if success then
      let copy := b
      let b := { b with status := BlockStatus.Finalized }
      let (chain, err) := chain.add_block K copy
      let bm := match err with
        | none => bm.remove_unfinalized_block b.height
        | some _ => bm
      some (true, b, chain, bm)
    else
      some (false, b, chain, bm)

/-! Merkle library model.

Modelled from the spec: the `rs_merkle` crate (spec §1 item (e) treats it as
"an opaque Merkle library with insert/commit/prove/verify/rollback"; spec
§4.1 and §3 describe its observable behaviour: an ordered leaf set, staged
until commit, root present iff at least one committed leaf, batch
multi-proofs over chosen indices verified against the current committed
root).  The node-combining hash (Keccak-256 over the two children) is its
opaque primitive and is a parameter `H2` throughout.  Proof bytes are
modelled as the list of sibling hashes they serialise. -/

abbrev Leaf := List Nat

/-- One pairing level of the Merkle root computation; a trailing lone node
is promoted unchanged. -/
def pairUp (H2 : Leaf → Leaf → Leaf) : List Leaf → List Leaf
  | [] => []
  | [x] => [x]
  | a :: b :: rest => H2 a b :: pairUp H2 rest

def rootAux (H2 : Leaf → Leaf → Leaf) : Nat → List Leaf → Option Leaf
  | _, [] => none
  | _, [x] => some x
  | 0, _ :: _ :: _ => none
  | fuel + 1, layer => rootAux H2 fuel (pairUp H2 layer)

/-- Root of a committed leaf list: pair levels until one node remains;
`none` iff there are no leaves. -/
def rootOfLeaves (H2 : Leaf → Leaf → Leaf) (leaves : List Leaf) : Option Leaf :=
  rootAux H2 leaves.length leaves

/-- Combine one pair of a partial layer during multi-proof verification: a
missing sibling of a known node is drawn from the proof queue; a fully
unknown pair stays unknown (its hash will be drawn higher up); a known node
whose sibling is missing while the queue is empty fails verification. -/
def combinePair (H2 : Leaf → Leaf → Leaf) :
    Option Leaf → Option Leaf → List Leaf → Option (Option Leaf × List Leaf)
  | some a, some b, proof => some (some (H2 a b), proof)
  | some a, none, p :: proof => some (some (H2 a p), proof)
  | none, some b, p :: proof => some (some (H2 p b), proof)
  | some _, none, [] => none
  | none, some _, [] => none
  | none, none, proof => some (none, proof)

def pairUpPartial (H2 : Leaf → Leaf → Leaf) :
    List (Option Leaf) → List Leaf → Option (List (Option Leaf) × List Leaf)
  | [], proof => some ([], proof)
  | [x], proof => some ([x], proof)
  | a :: b :: rest, proof =>
    match combinePair H2 a b proof with
    | none => none
    | some (z, proof) =>
      match pairUpPartial H2 rest proof with
      | none => none
      | some (l, proof) => some (z :: l, proof)

def reconstructAux (H2 : Leaf → Leaf → Leaf) :
    Nat → List (Option Leaf) → List Leaf → Option Leaf
  | _, [], _ => none
  | _, [x], _ => x
  | 0, _ :: _ :: _, _ => none
  | fuel + 1, layer, proof =>
    match pairUpPartial H2 layer proof with
    | none => none
    | some (l, proof) => reconstructAux H2 fuel l proof

/-- The bottom layer of a partial tree: position i holds the leaf claimed
for index i when one was supplied, and is unknown otherwise. -/
def initLayer (total : Nat) (pairs : List (Nat × Leaf)) : List (Option Leaf) :=
  (List.range total).map (fun i => (pairs.find? (fun p => p.1 = i)).map Prod.snd)

/-- Multi-proof verification: pair the supplied indices with the supplied
leaves, rebuild the root consuming sibling hashes from the proof, and
compare with the expected root. -/
def multiproofVerify (H2 : Leaf → Leaf → Leaf) (root : Leaf) (indices : List Nat)
    (leaves : List Leaf) (total : Nat) (proof : List Leaf) : Bool :=
  let layer := initLayer total (indices.zip leaves)
  match reconstructAux H2 total layer proof with
  | none => false
  | some r => r == root

/-- One pairing level of multi-proof generation: nodes carry a flag saying
whether the verifier will know them; the sibling of a known node that the
verifier will not know is emitted into the proof, level by level, left to
right. -/
def pairUpGen (H2 : Leaf → Leaf → Leaf) :
    List (Leaf × Bool) → List Leaf × List (Leaf × Bool)
  | [] => ([], [])
  | [x] => ([], [x])
  | (a, ka) :: (b, kb) :: rest =>
    let (emitted, next) := pairUpGen H2 rest
    let here := if ka ∧ ¬ kb then [b] else if kb ∧ ¬ ka then [a] else []
    (here ++ emitted, (H2 a b, ka ∨ kb) :: next)

def genAux (H2 : Leaf → Leaf → Leaf) : Nat → List (Leaf × Bool) → List Leaf
  | _, [] => []
  | _, [_] => []
  | 0, _ :: _ :: _ => []
  | fuel + 1, layer =>
    let (emitted, next) := pairUpGen H2 layer
    emitted ++ genAux H2 fuel next

/-- Multi-proof generation for the given indices over the full leaf list. -/
def multiproofGen (H2 : Leaf → Leaf → Leaf) (leaves : List Leaf)
    (indices : List Nat) : List Leaf :=
  genAux H2 leaves.length
    (leaves.enum.map (fun p => (p.2, indices.contains p.1)))

/-- The `rs_merkle` MerkleTree state: the history of committed leaf lists
(most recent first) plus the staged, uncommitted leaves. -/
structure MerkleTreeLib where
  history : List (List Leaf)
  uncommitted : List Leaf
deriving DecidableEq, Repr

def MerkleTreeLib.empty : MerkleTreeLib := ⟨[], []⟩

def MerkleTreeLib.leaves (t : MerkleTreeLib) : List Leaf :=
  t.history.headD []

def MerkleTreeLib.insertLeaf (t : MerkleTreeLib) (v : Leaf) : MerkleTreeLib :=
  { t with uncommitted := t.uncommitted ++ [v] }

def MerkleTreeLib.commitLib (t : MerkleTreeLib) : MerkleTreeLib :=
  { history := (t.leaves ++ t.uncommitted) :: t.history, uncommitted := [] }

/-- Rolls back the most recent commit, reverting to the previous committed
state. -/
def MerkleTreeLib.rollbackLib (t : MerkleTreeLib) : MerkleTreeLib :=
  { t with history := t.history.tail }

def MerkleTreeLib.root (H2 : Leaf → Leaf → Leaf) (t : MerkleTreeLib) : Option Leaf :=
  rootOfLeaves H2 t.leaves

/-- src/storage/tree.rs `Tree`: the repository's wrapper around the library
tree. -/
structure Tree where
  identifier : String
  tree : MerkleTreeLib
deriving DecidableEq, Repr

def Tree.new (identifier : String) : Tree :=
  ⟨identifier, MerkleTreeLib.empty⟩

def Tree.insert (t : Tree) (value : Leaf) : Tree :=
  { t with tree := t.tree.insertLeaf value }

def Tree.get_leaves (t : Tree) : List Leaf :=
  t.tree.leaves

def Tree.rollback (t : Tree) : Tree :=
  { t with tree := t.tree.rollbackLib }

/-- src/storage/tree.rs `Tree::commit`: commit the staged leaves, build a
batch proof over every index, self-verify it against the new root, and roll
back on failure.  Returns the new tree state with `(ok, proof_bytes,
indices)`. -/
def Tree.commit (H2 : Leaf → Leaf → Leaf) (t : Tree) :
    Tree × Bool × List Leaf × List Nat :=
  let t := { t with tree := t.tree.commitLib }
  let leaves := t.get_leaves
  if leaves.isEmpty then (t, true, [], [])
  else
    let indices_to_prove := List.range leaves.length
    let proof_bytes := multiproofGen H2 leaves indices_to_prove
    match t.tree.root H2 with
    | none => (t.rollback, false, [], [])
    | some root =>
      if multiproofVerify H2 root indices_to_prove leaves leaves.length proof_bytes
      then (t, true, proof_bytes, indices_to_prove)
      else (t.rollback, false, [], [])

/-- src/storage/tree.rs `Tree::verify_proof_bytes`: false when the root is
absent, else library multi-proof verification against the current root and
current committed leaf count. -/
def Tree.verify_proof_bytes (H2 : Leaf → Leaf → Leaf) (t : Tree)
    (leaves_to_verify : List Leaf) (indices : List Nat) (proof_bytes : List Leaf) :
    Bool :=
  match t.tree.root H2 with
  | none => false
  | some root =>
    multiproofVerify H2 root indices leaves_to_verify t.get_leaves.length proof_bytes

/-- src/storage/level_db.rs `Storage`: the durable KV adapter.  The
underlying `rusty_leveldb` database is external; it is modelled as an
association list where a fresh write shadows older ones, plus a `failing`
flag injecting the I/O failure the error paths react to. -/
structure Storage where
  data : List (List Nat × String)
  failing : Bool
deriving DecidableEq, Repr

/-- src/storage/level_db.rs `Storage::store`: returns the new state and
whether the put succeeded. -/
def Storage.store (st : Storage) (key : List Nat) (value : String) :
    Storage × Bool :=
  if st.failing then (st, false)
  else ({ st with data := (key, value) :: st.data }, true)

def Storage.getValue (st : Storage) (key : List Nat) : Option String :=
  (st.data.find? (fun p => p.1 = key)).map Prod.snd

structure DifficultyUpdate where
  current : Nat
  previous : Nat
  difference : Nat
deriving DecidableEq, Repr

inductive LedgerValue where
  | Mining (u : DifficultyUpdate)
  | Accounts (w : Wallet)
  | Blocks (b : Block)
deriving DecidableEq, Repr

structure LedgerProof where
  tree_identifier : String
  proof_indices : List Nat
  proof_data : List Leaf
deriving DecidableEq, Repr

structure LedgerEntry where
  key : List Nat
  value : LedgerValue
  proof : Option LedgerProof
  version : Nat
deriving DecidableEq, Repr

/-- src/storage/ledger.rs `Ledger`.  `entries` is the in-memory HashMap,
modelled as an association list where a fresh insert shadows older ones. -/
structure Ledger where
  mining_tree : Tree
  accounts_tree : Tree
  blocks_tree : Tree
  entries : List (List Nat × LedgerEntry)
deriving DecidableEq, Repr

def Ledger.new : Ledger :=
  { mining_tree := Tree.new "mining"
    accounts_tree := Tree.new "accounts"
    blocks_tree := Tree.new "blocks"
    entries := [] }

def Ledger.entriesGet (l : Ledger) (key : List Nat) : Option LedgerEntry :=
  (l.entries.find? (fun p => p.1 = key)).map Prod.snd

def Ledger.entriesInsert (l : Ledger) (key : List Nat) (e : LedgerEntry) : Ledger :=
  { l with entries := (key, e) :: l.entries }

/-- src/utils/conversion.rs `hash_to_32bit_array`: the first 32 bytes of
the string, zero-padded to 32. -/
def hash_to_32bit_array (hash : String) : List Nat :=
  let bytes := asciiBytes hash
  bytes.take 32 ++ List.replicate (32 - min bytes.length 32) 0

/-- src/storage/ledger.rs `Ledger::get_key`: Keccak over the Debug
rendering of the value, squeezed into 32 bytes.  The derived Debug
formatter is external; it is the parameter `dbg`. -/
def Ledger.get_key (K : String → List Nat) (dbg : LedgerValue → String)
    (value : LedgerValue) : List Nat :=
  hash_to_32bit_array (transform K (dbg value))

/-- src/storage/ledger.rs `Ledger::save_entry`: version is the prior
version plus one when the key is present, else 0; the entry is stored under
the key and also returned. -/
def Ledger.save_entry (l : Ledger) (key : List Nat) (value : LedgerValue)
    (proof : LedgerProof) : Ledger × LedgerEntry :=
  let version := match l.entriesGet key with
    | some e => e.version + 1
    | none => 0
  let entry : LedgerEntry := ⟨key, value, some proof, version⟩
  (l.entriesInsert key entry, entry)

/-- src/storage/ledger.rs `Ledger::format_entry_value`: the persisted JSON
string.  `toJson` is the external serde serializer (total on these types;
the Rust error fallback is unreachable).  Note the literal `0` in the
version position of the Rust format call. -/
def Ledger.format_entry_value (toJson : LedgerValue → String) (key : List Nat)
    (value : LedgerValue) : String :=
  "\x7b\"key\":\"" ++ to_hex key ++ "\", \"value\":" ++ toJson value
    ++ ", \"version\":" ++ toString 0 ++ "\x7d"

def Ledger.getTree (l : Ledger) (tree_identifier : String) : Option Tree :=
  if tree_identifier = "mining" then some l.mining_tree
  else if tree_identifier = "accounts" then some l.accounts_tree
  else if tree_identifier = "blocks" then some l.blocks_tree
  else none

def Ledger.setTree (l : Ledger) (tree_identifier : String) (t : Tree) : Ledger :=
  if tree_identifier = "mining" then { l with mining_tree := t }
  else if tree_identifier = "accounts" then { l with accounts_tree := t }
  else if tree_identifier = "blocks" then { l with blocks_tree := t }
  else l

/-- src/storage/ledger.rs `Ledger::commit_with_identifier`: insert the key
into the category tree and commit; on commit failure return none (the tree
rolled itself back); otherwise save the entry, format it, and write it
through to the KV store; on KV failure roll back the category tree and
return none; on success return the proof. -/
def Ledger.commit_with_identifier (H2 : Leaf → Leaf → Leaf)
    (toJson : LedgerValue → String) (l : Ledger) (key : List Nat)
    (entry_value : LedgerValue) (tree_identifier : String) (storage : Storage) :
    Ledger × Storage × Option LedgerProof :=
  match l.getTree tree_identifier with
  | none => (l, storage, none)
  | some tree =>
    let tree := tree.insert key
    let (tree, ok, tree_proof_bytes, tree_indices) := tree.commit H2
    let l := l.setTree tree_identifier tree
    if ok then
      let proof : LedgerProof := ⟨tree_identifier, tree_indices, tree_proof_bytes⟩
      let (l, entry) := l.save_entry key entry_value proof
      let formatted_value := Ledger.format_entry_value toJson entry.key entry.value
      let (storage, stored) := storage.store key formatted_value
      if stored then (l, storage, some proof)
      else
        let l := match l.getTree tree_identifier with
          | some t => l.setTree tree_identifier t.rollback
          | none => l
        (l, storage, none)
    else (l, storage, none)

/-- src/storage/ledger.rs `Ledger::verify_entry`: look the entry up, and
when it carries a proof verify it against the named tree; false when there
is no entry, no proof, an unknown tree name, or the tree rejects. -/
def Ledger.verify_entry (H2 : Leaf → Leaf → Leaf) (l : Ledger) (key : List Nat) :
    Bool :=
  match l.entriesGet key with
  | none => false
  | some entry =>
    match entry.proof with
    | none => false
    | some proof =>
      match l.getTree proof.tree_identifier with
      | none => false
      | some tree =>
        tree.verify_proof_bytes H2 [key] proof.proof_indices proof.proof_data

/-- The persisted string shape asserted by the claim (spec §4.3 step 4):
`\x7b"key":hex, "value":json, "version":ver\x7d` with `ver` the version
assigned to the saved entry.  Stated from the spec's words, to be compared
with `Ledger.format_entry_value`. -/
def claimedPersistedString (toJson : LedgerValue → String) (key : List Nat)
    (value : LedgerValue) (ver : Nat) : String :=
  "\x7b\"key\":\"" ++ to_hex key ++ "\", \"value\":" ++ toJson value
    ++ ", \"version\":" ++ toString ver ++ "\x7d"

/-! Gossip overlay receive path, src/client/network.rs `handle_connection`.
The per-peer receive loop is modelled frame by frame: the async runtime
serialises the check-and-insert on `seen_messages` (it is performed under
the mutex), so a sequence of inbound frames is processed sequentially
against the shared state.  Peer intake (`receive_from_peer`) is the
black-box parameter `intake`; the base64 engine is the parameter
`decodeB64`. -/

def hexDigitVal (c : Char) : Option Nat :=
  if 48 ≤ c.toNat ∧ c.toNat ≤ 57 then some (c.toNat - 48)
  else if 97 ≤ c.toNat ∧ c.toNat ≤ 102 then some (c.toNat - 87)
  else if 65 ≤ c.toNat ∧ c.toNat ≤ 70 then some (c.toNat - 55)
  else none

/-- src/utils/conversion.rs `from_hex`: bytes from successive pairs of hex
characters; a trailing unpaired character is dropped (the loop breaks);
`none` on a non-hex character (the `ParseIntError`). -/
def fromHexChars : List Char → Option (List Nat)
  | [] => some []
  | [_] => some []
  | c1 :: c2 :: rest =>
    match hexDigitVal c1, hexDigitVal c2 with
    | some h, some l =>
      match fromHexChars rest with
      | some bytes => some ((16 * h + l) :: bytes)
      | none => none
    | _, _ => none

def from_hex (s : String) : Option (List Nat) :=
  fromHexChars s.data

/-- Bytes back to text, modelling `String::from_utf8` on the ASCII payloads
the node exchanges (hex and base64 text); a byte outside ASCII is treated
as the decode failure. -/
def asciiOfBytes : List Nat → Option String
  | bytes =>
    if bytes.all (fun b => b < 128) then some (String.mk (bytes.map Char.ofNat))
    else none

/-- Rust `str::starts_with`. -/
def strStartsWith (s pre : String) : Bool :=
  pre.data.isPrefixOf s.data

/-- Rust `str::splitn(2, c)` collected into a vector: at most two pieces,
split at the first occurrence. -/
def splitFirstAux (c : Char) : List Char → Option (List Char × List Char)
  | [] => none
  | x :: xs =>
    if x = c then some ([], xs)
    else match splitFirstAux c xs with
      | none => none
      | some (a, b) => some (x :: a, b)

def splitn2 (s : String) (c : Char) : List String :=
  match splitFirstAux c s.data with
  | none => [s]
  | some (a, b) => [String.mk a, String.mk b]

structure GossipState where
  seen_messages : List (List Nat)
  peers : List Nat
deriving DecidableEq, Repr

structure FrameEvent where
  msg_id : List Nat
  identifier : String
  data : String
  success : Bool
deriving DecidableEq, Repr

/-- Stage one of the receive loop: hex-decode the frame and split off the
32-byte message id; frames that fail UTF-8/hex decoding or are shorter than
32 bytes are dropped (`continue`) before the seen-set is consulted. -/
def parseFrame (frame : String) : Option (List Nat × List Nat) :=
  match from_hex frame with
  | none => none
  | some raw_bytes =>
    if raw_bytes.length < 32 then none
    else some (raw_bytes.take 32, raw_bytes.drop 32)

/-- Stage two: decode the payload to text, base64-decode it, require one of
the three category prefixes, split once at the colon, and require nonempty
inner data; every failure is a `continue` with no intake call. -/
def parsePayload (decodeB64 : String → Option String) (payload : List Nat) :
    Option (String × String) :=
  match asciiOfBytes payload with
  | none => none
  | some base64_str =>
    match decodeB64 base64_str with
    | none => none
    | some message =>
      if strStartsWith message "blocks:" ∨ strStartsWith message "accounts:"
          ∨ strStartsWith message "mining:" then
        match splitn2 message ':' with
        | [identifier, inner] => if inner = "" then none else some (identifier, inner)
        | _ => none
      else none

/-- One iteration of the receive loop for one inbound frame from `sender`:
returns the new shared state, the intake invocation (by construction at
most one per frame), and the relay recipients (every peer except the
sender, exactly when intake succeeded). -/
def processFrame (decodeB64 : String → Option String)
    (intake : String → String → Bool) (st : GossipState) (sender : Nat)
    (frame : String) : GossipState × Option FrameEvent × List Nat :=
  match parseFrame frame with
  | none => (st, none, [])
  | some (msg_id, payload) =>
    if st.seen_messages.contains msg_id then (st, none, [])
    else
      let st := { st with seen_messages := msg_id :: st.seen_messages }
      match parsePayload decodeB64 payload with
      | none => (st, none, [])
      | some (identifier, inner) =>
        let success := intake identifier inner
        (st, some ⟨msg_id, identifier, inner, success⟩,
          if success then st.peers.filter (fun a => a ≠ sender) else [])

/-- The receive loop over a sequence of inbound frames, collecting the
intake invocations in order. -/
def processFrames (decodeB64 : String → Option String)
    (intake : String → String → Bool) (st : GossipState) :
    List (Nat × String) → GossipState × List FrameEvent
  | [] => (st, [])
  | f :: fs =>
    let (st, ev, _) := processFrame decodeB64 intake st f.1 f.2
    let (stFinal, evs) := processFrames decodeB64 intake st fs
    (stFinal, ev.toList ++ evs)

/-! Peer intake, src/client/peer.rs.  `process_peer_state` is written
against a Ledger generation that src/storage/ledger.rs no longer provides:
`Ledger::decode_block`, the two-argument `commit_with_identifier`,
`generate_proofs`, `rollback_with_identifier`, `format_entry`, and entries
whose `value` is a byte vector do not exist in src.  Those missing
operations are modelled from the spec as opaque parameters (spec §4.9 and
§4.3 describe only their successor API); the control flow around them — the
duplicate check by decoded hash, the key taken from the decoded state's
`hash` field, the discarded commit result, the entry bookkeeping — is
embedded from the peer.rs source as written. -/

/-- The decoded peer state; the code reads only its `hash` field (`payload`
stands opaquely for the rest of the bincode-decoded block). -/
structure PeerBlock where
  hash : List Nat
  payload : Nat
deriving DecidableEq, Repr

structure OldLedgerEntry where
  key : List Nat
  value : List Nat
  proof : Option Unit
  version : Nat
deriving DecidableEq, Repr

/-- The older-generation Ledger state peer.rs manipulates: its entries map
(value bytes) plus an opaque internal component the missing operations own. -/
structure OldLedger where
  entries : List (List Nat × OldLedgerEntry)
  internal : Nat
deriving DecidableEq, Repr

/-- Modelled from the spec: the Ledger operations peer.rs calls that are
absent from src/storage/ledger.rs (`decode_block`, `encode` via bincode,
the two-argument `commit_with_identifier`, `generate_proofs`,
`rollback_with_identifier`, `verify_entry`, `format_entry`).  They are kept
opaque, as the spec keeps their library substrate opaque. -/
structure OldLedgerOps where
  decode_block : List Nat → Option PeerBlock
  encode_block : PeerBlock → Option (List Nat)
  commit_with_identifier : OldLedger → String → List Nat → OldLedger × Option Unit
  generate_proofs : OldLedger → String → OldLedger
  rollback_with_identifier : OldLedger → String → List Nat → OldLedger
  verify_entry : OldLedger → List Nat → Bool
  format_entry : OldLedger → List Nat → String

/-- The duplicate check of `process_peer_state`: some existing entry's
decoded value has the same hash as the incoming state. -/
def peer_duplicate (O : OldLedgerOps) (ledger : OldLedger) (new_state : PeerBlock) :
    Bool :=
  ledger.entries.any (fun p =>
    match O.decode_block p.2.value with
    | some existing => existing.hash = new_state.hash
    | none => false)

/-- src/client/peer.rs `process_peer_state`.  `none` models the panic of
`new_state.hash.try_into().unwrap()` when the decoded hash is not 32 bytes.
Note the Rust statement `ledger.commit_with_identifier(&identifier,
bytes_key).await;` whose result is discarded. -/
def process_peer_state (O : OldLedgerOps) (ledger : OldLedger) (storage : Storage)
    (block_data : List Nat) (identifier : String) :
    Option (OldLedger × Storage × Except String (List Nat)) :=
  match O.decode_block block_data with
  | none => some (ledger, storage, Except.error "Failed to decode block")
  | some new_state =>
    let exists_already := peer_duplicate O ledger new_state
    if exists_already then
      some (ledger, storage, Except.error (identifier ++ " already exists in ledger"))
    else
      match O.encode_block new_state with
      | none => some (ledger, storage, Except.error "Failed to serialize")
      | some serialized =>
        if new_state.hash.length = 32 then
          let bytes_key := new_state.hash
          let (ledger, _commit_result) := O.commit_with_identifier ledger identifier bytes_key
          let entry : OldLedgerEntry := ⟨bytes_key, serialized, none, 0⟩
          let ledger := { ledger with entries := (bytes_key, entry) :: ledger.entries }
          let ledger := O.generate_proofs ledger identifier
          if ¬ O.verify_entry ledger bytes_key then
            let ledger := { ledger with
              entries := ledger.entries.filter (fun p => p.1 ≠ bytes_key) }
            let ledger := O.rollback_with_identifier ledger identifier bytes_key
            some (ledger, storage, Except.error "Block verification failed")
          else
            let formatted_entry := O.format_entry ledger bytes_key
            let (storage, stored) := storage.store bytes_key formatted_entry
            if stored then some (ledger, storage, Except.ok bytes_key)
            else
              let ledger := { ledger with
                entries := ledger.entries.filter (fun p => p.1 ≠ bytes_key) }
              some (ledger, storage, Except.error "Failed to store block in database")
        else none

/-- `O` with its commit operation returning success, the state transition
unchanged: `process_peer_state` never inspects the commit's returned
option, so it behaves identically under this replacement. -/
def ignoreCommitResult (O : OldLedgerOps) : OldLedgerOps :=
  { O with commit_with_identifier := fun l i k =>
      ((O.commit_with_identifier l i k).1, some ()) }

/-- src/client/peer.rs `handle_peer_message`. -/
def handle_peer_message (O : OldLedgerOps) (ledger : OldLedger) (storage : Storage)
    (block_data : List Nat) (identifier : String) :
    Option (OldLedger × Storage × Except String String) :=
  match process_peer_state O ledger storage block_data identifier with
  | none => none
  | some (l, s, Except.ok block_key) =>
    some (l, s, Except.ok ("Block accepted: " ++ to_hex block_key))
  | some (l, s, Except.error e) =>
    some (l, s, Except.error ("Rejected block: " ++ e))

/-- src/client/peer.rs `receive_from_peer`: base64-decode the message to
bytes (the engine is the external parameter `decodeB64Bytes`), then handle
it. -/
def receive_from_peer (decodeB64Bytes : String → Option (List Nat))
    (O : OldLedgerOps) (message : String) (ledger : OldLedger) (storage : Storage)
    (identifier : String) : Option (OldLedger × Storage × Except String String) :=
  match decodeB64Bytes message with
  | none => some (ledger, storage, Except.error "Failed to decode base64 message")
  | some decoded => handle_peer_message O ledger storage decoded identifier

/-! Concrete instances used by witnesses, counterexamples and failing-input
evaluations.  `Kzero` stands in for the opaque Keccak digest (any 32-byte
digest exercises the embedded code identically on these paths), `H2app` for
the opaque Merkle node combiner, `toJsonOne` for the serde serializer. -/

def Kzero : String → List Nat := fun _ => List.replicate 32 0

def genesisW : Block := Block.new Kzero [] [] 0 0

def chainW : Blockchain := Blockchain.new Kzero 1 0

def blockW : Block := Block.new Kzero [] genesisW.hash 1 0

def bmW : BlockManager := ⟨[], [(1, blockW)]⟩

def minedHash : List Nat :=
  asciiBytes (transform Kzero (build_block_data Kzero [] genesisW.hash 1 0))

/-- A finalized height-1 block that `chainW` accepts: its fields satisfy
every `add_block` check at difficulty 1. -/
def blockFinW : Block :=
  { transactions := []
    previous_hash := genesisW.hash
    hash := asciiBytes (transform Kzero (build_block_data Kzero [] genesisW.hash 0 0))
    nonce := 0
    timestamp := 0
    status := BlockStatus.Finalized
    height := 1 }

/-- A Blockchain state reached from an initial state by a sequence of
`add_block` offers (each offer applied whether accepted or rejected). -/
def applyBlocks (K : String → List Nat) (st : Blockchain) (ops : List Block) :
    Blockchain :=
  ops.foldl (fun s b => (s.add_block K b).1) st

/-- Invariant I3 of the spec: `blocks[h].height == h` and
`blocks[h].previous_hash == blocks[h-1].hash` for every h ≥ 1 in range. -/
def chainInvariant (st : Blockchain) : Prop :=
  ∀ h, 1 ≤ h → h < st.blocks.length →
    (st.blocks.getD h default).height = h ∧
    (st.blocks.getD h default).previous_hash = (st.blocks.getD (h - 1) default).hash

def H2app : Leaf → Leaf → Leaf := fun a b => a ++ b

def toJsonOne : LedgerValue → String := fun _ => "1"

def keyA : List Nat := List.replicate 32 1

def keyB : List Nat := List.replicate 32 2

def valA : LedgerValue := LedgerValue.Mining ⟨0, 0, 0⟩

def valB : LedgerValue := LedgerValue.Mining ⟨1, 0, 1⟩

def storageOk : Storage := ⟨[], false⟩

def storageBad : Storage := ⟨[], true⟩

def decIdW : String → Option String := fun s => some s

def intakeTrueW : String → String → Bool := fun _ _ => true

def msgIdW : List Nat := List.replicate 32 0

def frameW : String := to_hex (msgIdW ++ asciiBytes "blocks:x")

def gossipW : GossipState := ⟨[], [1, 2, 3]⟩

def c4run1 : Ledger × Storage × Option LedgerProof :=
  Ledger.commit_with_identifier H2app toJsonOne Ledger.new keyA valA "mining" storageOk

def c4run2 : Ledger × Storage × Option LedgerProof :=
  Ledger.commit_with_identifier H2app toJsonOne c4run1.1 keyA valA "mining" c4run1.2.1

def c5run1 : Ledger × Storage × Option LedgerProof :=
  Ledger.commit_with_identifier H2app toJsonOne Ledger.new keyA valA "accounts" storageOk

def c5run2 : Ledger × Storage × Option LedgerProof :=
  Ledger.commit_with_identifier H2app toJsonOne c5run1.1 keyB valB "accounts" c5run1.2.1

def peerKeyW : List Nat := List.replicate 32 9

/-- An instantiation of the opaque old-Ledger operations on which the
peer-intake commit yields none while verification and storage succeed. -/
def oldOpsW : OldLedgerOps :=
  { decode_block := fun b => if b = [7] then some ⟨peerKeyW, 0⟩ else none
    encode_block := fun _ => some (List.replicate 256 0)
    commit_with_identifier := fun l _ _ => (l, none)
    generate_proofs := fun l _ => l
    rollback_with_identifier := fun l _ _ => l
    verify_entry := fun _ _ => true
    format_entry := fun _ _ => "" }

def oldLedgerW : OldLedger := ⟨[], 0⟩

/-! Theorems. -/

theorem hexByte_facts : ∀ n < 16, hexByte n ≠ 0 ∧ byteLeadingZeros (hexByte n) ≤ 2 ∧
    ((48 ≤ hexByte n ∧ hexByte n ≤ 57) ∨ (97 ≤ hexByte n ∧ hexByte n ≤ 102)) := by
  decide

theorem hexChar_toNat : ∀ n < 16, (hexChar n).toNat = hexByte n := by
  decide

theorem asciiBytes_to_hex (d : List Nat) :
    asciiBytes (to_hex d) =
      (d.flatMap (fun b => [hexChar (b / 16 % 16), hexChar (b % 16)])).map Char.toNat := by
  rfl

theorem countLeadingZeros_to_hex (b : Nat) (rest : List Nat) :
    countLeadingZeros (asciiBytes (to_hex (b :: rest))) ≤ 2 := by
  have h16 : b / 16 % 16 < 16 := Nat.mod_lt _ (by norm_num)
  have hfacts := hexByte_facts (b / 16 % 16) h16
  rw [asciiBytes_to_hex]
  simp only [List.flatMap_cons, List.cons_append, List.map_cons]
  rw [hexChar_toNat _ h16]
  simp only [countLeadingZeros, if_neg hfacts.1]
  exact hfacts.2.1

theorem transform_meets_false (K : String → List Nat) (hK : ∀ s, K s ≠ [])
    (s : String) (t : Nat) (ht : 3 ≤ t) :
    meets_difficulty (asciiBytes (transform K s)) t = false := by
  unfold transform
  rcases hd : K s with _ | ⟨b, rest⟩
  · exact absurd hd (hK s)
  · have hle := countLeadingZeros_to_hex b rest
    unfold meets_difficulty
    exact decide_eq_false (by omega)

theorem mineLoop_snd_false (K : String → List Nat) (hK : ∀ s, K s ≠ [])
    (t : Nat) (ht : 3 ≤ t) :
    ∀ fuel b, (mineLoop K b t fuel).2 = false := by
  intro fuel
  induction fuel with
  | zero => intro b; rfl
  | succ n ih =>
    intro b
    simp only [mineLoop, transform_meets_false K hK _ t ht, Bool.false_eq_true,
      if_false]
    exact ih _

/-- C1: every hash `transform` produces is the ASCII bytes of a lowercase
hex string, so its first byte is an ASCII hex character (0x30-0x39 or
0x61-0x66) and `meets_difficulty` counts at most 2 leading zero bits on it;
hence for any difficulty target of at least 3 bits (the initial 16
included), every attempt fails and `mine` returns false after exhausting
its 1,000,000 attempts. -/
theorem claim_C1 (K : String → List Nat) (hK : ∀ s, K s ≠ [])
    (b : Block) (chain : Blockchain) (bm : BlockManager) (t : Nat)
    (htarget : b.get_difficulty_target chain = some t) (ht : 3 ≤ t) :
    (∀ s, ∃ c cs, asciiBytes (transform K s) = c :: cs ∧
      ((48 ≤ c ∧ c ≤ 57) ∨ (97 ≤ c ∧ c ≤ 102))) ∧
    (∀ s tb, 3 ≤ tb → meets_difficulty (asciiBytes (transform K s)) tb = false) ∧
    (∃ b2, Block.mine K b chain bm = some (false, b2, chain, bm)) := by
  refine ⟨?_, fun s tb htb => transform_meets_false K hK s tb htb, ?_⟩
  · intro s
    rcases hd : K s with _ | ⟨b0, rest⟩
    · exact absurd hd (hK s)
    · have h16 : b0 / 16 % 16 < 16 := Nat.mod_lt _ (by norm_num)
      unfold transform
      simp only [hd, asciiBytes_to_hex, List.flatMap_cons, List.cons_append,
        List.map_cons, hexChar_toNat _ h16]
      exact ⟨_, _, rfl, (hexByte_facts _ h16).2.2⟩
  · refine ⟨(mineLoop K b t 1000000).1, ?_⟩
    unfold Block.mine
    rw [htarget]
    simp only [mineLoop_snd_false K hK t ht 1000000 b, Bool.false_eq_true,
      if_false]

/-- Concrete instantiation discharging the hypotheses of `claim_C1`: a
constant all-zero digest, a height-0 block (target 16 ≥ 3). -/
theorem claim_C1_witness :
    (Block.new (fun _ => List.replicate 32 0) [] [] 0 0).get_difficulty_target
        (Blockchain.new (fun _ => List.replicate 32 0) 16 0) = some 16 ∧
    (∃ b2, Block.mine (fun _ => List.replicate 32 0)
        (Block.new (fun _ => List.replicate 32 0) [] [] 0 0)
        (Blockchain.new (fun _ => List.replicate 32 0) 16 0)
        ⟨[], []⟩ = some (false, b2,
          Blockchain.new (fun _ => List.replicate 32 0) 16 0, ⟨[], []⟩)) :=
  ⟨rfl,
    (claim_C1 (fun _ => List.replicate 32 0) (fun _ => by simp)
      (Block.new (fun _ => List.replicate 32 0) [] [] 0 0)
      (Blockchain.new (fun _ => List.replicate 32 0) 16 0)
      ⟨[], []⟩ 16 rfl (by norm_num)).2.2⟩

/-- C6: `get_difficulty_target` returns 16 at height 0; keeps the chain's
current difficulty off the 2016-block boundary; and on the boundary, with
elapsed time measured against the block 2016 heights back and expected time
600·2016: adds 1 below a quarter of expected, subtracts 1 (saturating at 0)
above four times expected, and leaves the difficulty unchanged when elapsed
equals expected exactly. -/
theorem claim_C6 (b : Block) (chain : Blockchain) :
    (b.height = 0 → b.get_difficulty_target chain = some 16) ∧
    (b.height ≠ 0 → b.height % 2016 ≠ 0 →
      b.get_difficulty_target chain = some chain.current_difficulty_bits) ∧
    (∀ start_block, b.height ≠ 0 → b.height % 2016 = 0 →
      chain.get_block_by_height (b.height - 2016) = some start_block →
      start_block.timestamp ≤ b.timestamp →
      ((b.timestamp - start_block.timestamp < 600 * 2016 / 4 →
        b.get_difficulty_target chain = some (chain.current_difficulty_bits + 1)) ∧
      (b.timestamp - start_block.timestamp > 600 * 2016 * 4 →
        b.get_difficulty_target chain = some (chain.current_difficulty_bits - 1)) ∧
      (b.timestamp - start_block.timestamp = 600 * 2016 →
        b.get_difficulty_target chain = some chain.current_difficulty_bits))) := by
  refine ⟨?_, ?_, ?_⟩
  · intro h0
    simp [Block.get_difficulty_target, h0]
  · intro h0 hmod
    simp [Block.get_difficulty_target, h0, hmod]
  · intro start_block h0 hmod hsb hts
    simp only [Block.get_difficulty_target, if_neg h0, hmod, ne_eq,
      not_true_eq_false, if_false, hsb]
    refine ⟨?_, ?_, ?_⟩
    · intro hlt
      norm_num at hlt ⊢
      simp [hlt]
    · intro hgt
      have hnlt : ¬ b.timestamp - start_block.timestamp < 600 * 2016 / 4 := by omega
      norm_num at hnlt hgt ⊢
      simp [hnlt, hgt]
    · intro heq
      norm_num at heq ⊢
      rw [heq]
      norm_num

/-- Concrete instantiation discharging the hypotheses of `claim_C6`: a
boundary block at height 2016 whose elapsed time is exactly 600·2016, over
a chain at difficulty 20; the difficulty is unchanged. -/
theorem claim_C6_witness :
    ((2016 : Nat) ≠ 0) ∧ ((2016 : Nat) % 2016 = 0) ∧
    (Blockchain.get_block_by_height
      ⟨[⟨[], [], [], 0, 0, BlockStatus.Finalized, 0⟩], [], 20, []⟩ (2016 - 2016) =
      some ⟨[], [], [], 0, 0, BlockStatus.Finalized, 0⟩) ∧
    (Block.get_difficulty_target
      ⟨[], [], [], 0, 600 * 2016, BlockStatus.Finalized, 2016⟩
      ⟨[⟨[], [], [], 0, 0, BlockStatus.Finalized, 0⟩], [], 20, []⟩ = some 20) := by
  refine ⟨by norm_num, by norm_num, by decide, ?_⟩
  exact ((claim_C6 ⟨[], [], [], 0, 600 * 2016, BlockStatus.Finalized, 2016⟩
      ⟨[⟨[], [], [], 0, 0, BlockStatus.Finalized, 0⟩], [], 20, []⟩).2.2
      ⟨[], [], [], 0, 0, BlockStatus.Finalized, 0⟩
      (by norm_num) (by norm_num) (by decide) (by norm_num)).2.2 (by norm_num)

/-- C7, failing input: chain at difficulty 1 with its genesis block, an
unfinalised height-1 block registered in the unfinalised map.  Mining
succeeds at the very first nonce and returns true with `status` set to
Finalized — but the copy handed to `add_block` was cloned before the status
was set, so `add_block` rejects it with `UnfinalizedBlock`, the chain is
not extended, and the height is NOT removed from the unfinalised map,
contradicting the claim's removal step. -/
theorem claim_C7_bug :
    Block.mine Kzero blockW chainW bmW =
      some (true,
        { blockW with nonce := 1, hash := minedHash, status := BlockStatus.Finalized },
        chainW, bmW) ∧
    (1, blockW) ∈ bmW.unfinalized_blocks ∧
    (chainW.add_block Kzero { blockW with nonce := 1, hash := minedHash }).2 =
      some BlockchainError.UnfinalizedBlock := by
  refine ⟨by decide, by decide, by decide⟩

/-- C2: `add_block` rejects, in this order, an Unfinalized block, a wrong
previous hash (against the last block's hash), a height different from the
chain length, and a failed hash-and-difficulty reverification; otherwise it
appends.  On every error path the state — in particular the blocks vector —
is unchanged, and the only other Blockchain mutator, `add_account`, leaves
the blocks vector unchanged. -/
theorem claim_C2 (K : String → List Nat) (st : Blockchain) (b lastb : Block)
    (hlast : st.blocks.getLast? = some lastb) :
    (b.status = BlockStatus.Unfinalized →
      st.add_block K b = (st, some BlockchainError.UnfinalizedBlock)) ∧
    (b.status ≠ BlockStatus.Unfinalized → b.previous_hash ≠ lastb.hash →
      st.add_block K b = (st, some BlockchainError.InvalidPreviousHash)) ∧
    (b.status ≠ BlockStatus.Unfinalized → b.previous_hash = lastb.hash →
      b.height ≠ st.blocks.length →
      st.add_block K b = (st, some BlockchainError.InvalidBlockHeight)) ∧
    (b.status ≠ BlockStatus.Unfinalized → b.previous_hash = lastb.hash →
      b.height = st.blocks.length → b.verify K st.current_difficulty_bits = false →
      st.add_block K b = (st, some BlockchainError.InvalidProofOfWork)) ∧
    (b.status ≠ BlockStatus.Unfinalized → b.previous_hash = lastb.hash →
      b.height = st.blocks.length → b.verify K st.current_difficulty_bits = true →
      st.add_block K b = ({ st with blocks := st.blocks ++ [b] }, none)) ∧
    (∀ e, (st.add_block K b).2 = some e → (st.add_block K b).1 = st) ∧
    (∀ w, (st.add_account w).blocks = st.blocks) := by
  refine ⟨?_, ?_, ?_, ?_, ?_, ?_, fun w => rfl⟩
  · intro h1
    simp [Blockchain.add_block, h1]
  · intro h1 h2
    simp [Blockchain.add_block, hlast, h1, h2]
  · intro h1 h2 h3
    simp [Blockchain.add_block, hlast, h1, h2, h3]
  · intro h1 h2 h3 h4
    simp [Blockchain.add_block, hlast, h1, h2, h3, h4]
  · intro h1 h2 h3 h4
    simp [Blockchain.add_block, hlast, h1, h2, h3, h4]
  · intro e he
    simp only [Blockchain.add_block, hlast] at he ⊢
    split_ifs at he ⊢ <;> simp_all

/-- Concrete instantiation discharging the hypotheses of `claim_C2`: the
fresh chain rejects its own still-unfinalised candidate block with
`UnfinalizedBlock`, leaving the state unchanged. -/
theorem claim_C2_witness :
    blockW.status = BlockStatus.Unfinalized ∧
    chainW.add_block Kzero blockW = (chainW, some BlockchainError.UnfinalizedBlock) :=
  ⟨by decide,
    (claim_C2 Kzero chainW blockW genesisW (by decide)).1 (by decide)⟩

theorem add_block_blocks_append (K : String → List Nat) (st : Blockchain) (b : Block) :
    ∃ tail, ((st.add_block K b).1).blocks = st.blocks ++ tail ∧
      (tail = [] ∨ tail = [b]) := by
  unfold Blockchain.add_block
  rcases hl : st.blocks.getLast? with _ | lastb <;>
    simp only [hl] <;>
    split_ifs <;>
    first
      | exact ⟨[b], rfl, Or.inr rfl⟩
      | exact ⟨[], (List.append_nil _).symm, Or.inl rfl⟩

theorem add_block_error_unchanged (K : String → List Nat) (st st' : Blockchain)
    (b : Block) (e : BlockchainError) (h : st.add_block K b = (st', some e)) :
    st' = st := by
  unfold Blockchain.add_block at h
  rcases hl : st.blocks.getLast? with _ | lastb <;> simp only [hl] at h <;>
    split_ifs at h <;> simp only [Prod.mk.injEq] at h <;> obtain ⟨h1, h2⟩ := h <;>
    first
      | exact Option.noConfusion h2
      | exact h1.symm

theorem add_block_success_eq (K : String → List Nat) (st st' : Blockchain)
    (b : Block) (h : st.add_block K b = (st', none)) :
    st'.blocks = st.blocks ++ [b] ∧ b.height = st.blocks.length ∧
    (∀ lastb, st.blocks.getLast? = some lastb → b.previous_hash = lastb.hash) := by
  unfold Blockchain.add_block at h
  rcases hl : st.blocks.getLast? with _ | lastb <;> simp only [hl] at h <;>
    split_ifs at h with ha hb hc hd <;> simp only [Prod.mk.injEq] at h <;>
    obtain ⟨h1, h2⟩ := h <;>
    first
      | exact Option.noConfusion h2
      | (rw [← h1]
         refine ⟨rfl, not_ne_iff.mp hc, ?_⟩
         intro lastb2 hl2
         first
           | exact Option.noConfusion hl2
           | (injection hl2 with hl3; exact hl3 ▸ not_ne_iff.mp hb))

theorem add_block_preserves_invariant (K : String → List Nat) (st : Blockchain)
    (b : Block) (hinv : chainInvariant st) : chainInvariant (st.add_block K b).1 := by
  rcases hr : st.add_block K b with ⟨st', err⟩
  simp only
  rcases err with _ | e
  · obtain ⟨hb, hh, hprev⟩ := add_block_success_eq K st st' b hr
    intro h h1 hlt
    rw [hb] at hlt ⊢
    simp only [List.length_append, List.length_cons, List.length_nil] at hlt
    rcases Nat.lt_or_ge h st.blocks.length with hcase | hcase
    · have hpred : h - 1 < st.blocks.length := by omega
      rw [List.getD_append _ _ _ _ hcase, List.getD_append _ _ _ _ hpred]
      exact hinv h h1 hcase
    · have hlen : h = st.blocks.length := by omega
      have hne : st.blocks ≠ [] := by
        intro hemp
        rw [hemp] at hlen
        simp at hlen
        omega
      have hpred : h - 1 < st.blocks.length := by omega
      have e1 : (st.blocks ++ [b]).getD h default = b := by
        rw [hlen, List.getD_append_right _ _ _ _ (le_refl _)]
        simp
      rw [e1, List.getD_append _ _ _ _ hpred]
      refine ⟨by omega, ?_⟩
      have hlast := List.getLast?_eq_getLast_of_ne_nil hne
      have hgl : st.blocks.getLast hne = st.blocks.getD (h - 1) default := by
        rw [List.getD_eq_getElem _ _ hpred, List.getLast_eq_getElem]
        congr 1
        omega
      rw [← hgl]
      exact hprev _ hlast
  · rw [add_block_error_unchanged K st st' b e hr]
    exact hinv

theorem applyBlocks_preserves_invariant (K : String → List Nat) (ops : List Block) :
    ∀ st, chainInvariant st → chainInvariant (applyBlocks K st ops) := by
  induction ops with
  | nil => intro st h; exact h
  | cons b rest ih =>
    intro st h
    exact ih _ (add_block_preserves_invariant K st b h)

theorem new_chainInvariant (K : String → List Nat) (d ts : Nat) :
    chainInvariant (Blockchain.new K d ts) := by
  intro h hh hlt
  simp only [Blockchain.new, List.length_cons, List.length_nil] at hlt
  omega

/-- C3: in every state reachable from `Blockchain.new` by `add_block`
calls, the blocks vector only ever grows by appending at the end, and for
every h ≥ 1 in range, `blocks[h].height = h` and `blocks[h].previous_hash =
blocks[h-1].hash`. -/
theorem claim_C3 (K : String → List Nat) (d ts : Nat) (ops : List Block) :
    chainInvariant (applyBlocks K (Blockchain.new K d ts) ops) ∧
    (∀ (st : Blockchain) (b : Block), ∃ tail,
      ((st.add_block K b).1).blocks = st.blocks ++ tail ∧
      (tail = [] ∨ tail = [b])) :=
  ⟨applyBlocks_preserves_invariant K ops _ (new_chainInvariant K d ts),
    fun st b => add_block_blocks_append K st b⟩

/-- Concrete instantiation discharging the hypotheses inside `claim_C3`'s
invariant: after appending one accepted block the chain has length 2 and
the invariant's equations hold at h = 1. -/
theorem claim_C3_witness :
    1 < (applyBlocks Kzero (Blockchain.new Kzero 1 0) [blockFinW]).blocks.length ∧
    ((applyBlocks Kzero (Blockchain.new Kzero 1 0) [blockFinW]).blocks.getD 1
      default).height = 1 ∧
    ((applyBlocks Kzero (Blockchain.new Kzero 1 0) [blockFinW]).blocks.getD 1
      default).previous_hash =
      ((applyBlocks Kzero (Blockchain.new Kzero 1 0) [blockFinW]).blocks.getD 0
        default).hash :=
  ⟨by decide,
    ((claim_C3 Kzero 1 0 [blockFinW]).1 1 (le_refl 1) (by decide)).1,
    ((claim_C3 Kzero 1 0 [blockFinW]).1 1 (le_refl 1) (by decide)).2⟩

theorem setTree_entries (l : Ledger) (tid : String) (t : Tree) :
    (l.setTree tid t).entries = l.entries := by
  unfold Ledger.setTree
  split_ifs <;> rfl

theorem setTree_entriesGet (l : Ledger) (tid : String) (t : Tree) (k : List Nat) :
    (l.setTree tid t).entriesGet k = l.entriesGet k := by
  unfold Ledger.entriesGet
  rw [setTree_entries]

theorem getTree_setTree (l : Ledger) (tid : String) (t tree0 : Tree)
    (h : l.getTree tid = some tree0) : (l.setTree tid t).getTree tid = some t := by
  simp only [Ledger.getTree, Ledger.setTree] at h ⊢
  split_ifs at h ⊢ <;> simp_all

theorem entriesInsert_getTree (l : Ledger) (k : List Nat) (e : LedgerEntry)
    (tid : String) : (l.entriesInsert k e).getTree tid = l.getTree tid := by
  unfold Ledger.getTree Ledger.entriesInsert
  split_ifs <;> rfl

theorem entriesInsert_get_self (l : Ledger) (k : List Nat) (e : LedgerEntry) :
    (l.entriesInsert k e).entriesGet k = some e := by
  unfold Ledger.entriesGet Ledger.entriesInsert
  simp [List.find?_cons]

theorem Tree.commit_ok_history (H2 : Leaf → Leaf → Leaf) (t t1 : Tree)
    (pb : List Leaf) (idx : List Nat) (h : t.commit H2 = (t1, true, pb, idx)) :
    t1.identifier = t.identifier ∧
    t1.tree.history = (t.tree.leaves ++ t.tree.uncommitted) :: t.tree.history ∧
    t1.tree.uncommitted = [] := by
  unfold Tree.commit at h
  dsimp only at h
  split_ifs at h
  · simp only [Prod.mk.injEq] at h
    obtain ⟨ht, -, -, -⟩ := h
    rw [← ht]
    exact ⟨rfl, rfl, rfl⟩
  · split at h
    · simp only [Prod.mk.injEq] at h
      obtain ⟨-, hflag, -⟩ := h
      exact Bool.noConfusion hflag
    · split at h
      · simp only [Prod.mk.injEq] at h
        obtain ⟨ht, -, -, -⟩ := h
        rw [← ht]
        exact ⟨rfl, rfl, rfl⟩
      · simp only [Prod.mk.injEq] at h
        obtain ⟨-, hflag, -⟩ := h
        exact Bool.noConfusion hflag

theorem store_failing (storage : Storage) (k : List Nat) (v : String)
    (hfail : storage.failing = true) : storage.store k v = (storage, false) := by
  unfold Storage.store
  rw [if_pos hfail]

theorem store_ok_data (storage s2 : Storage) (k : List Nat) (v : String)
    (h : storage.store k v = (s2, true)) : s2.data = (k, v) :: storage.data := by
  unfold Storage.store at h
  split_ifs at h <;> simp only [Prod.mk.injEq] at h
  · exact Bool.noConfusion h.2
  · rw [← h.1]

/-- C10: when the KV write inside `commit_with_identifier` fails after a
successful Merkle commit, the call returns none and rolls the category tree
back to its pre-call committed leaves, but the entry saved by `save_entry`
remains in the entries map with its newly assigned version (prior + 1 when
the key was present, else 0): the entries map is not restored. -/
theorem claim_C10 (H2 : Leaf → Leaf → Leaf) (toJson : LedgerValue → String)
    (l : Ledger) (key : List Nat) (v : LedgerValue) (tid : String)
    (storage : Storage) (tree0 t1 : Tree) (pb : List Leaf) (idx : List Nat)
    (htree : l.getTree tid = some tree0)
    (hcommit : (tree0.insert key).commit H2 = (t1, true, pb, idx))
    (hfail : storage.failing = true) :
    ∃ l', Ledger.commit_with_identifier H2 toJson l key v tid storage =
        (l', storage, none) ∧
      (l'.getTree tid).map Tree.get_leaves = some tree0.get_leaves ∧
      l'.entriesGet key = some ⟨key, v, some ⟨tid, idx, pb⟩,
        match l.entriesGet key with
        | some e => e.version + 1
        | none => 0⟩ := by
  obtain ⟨-, hhist, -⟩ := Tree.commit_ok_history H2 (tree0.insert key) t1 pb idx hcommit
  unfold Ledger.commit_with_identifier
  rw [htree]
  dsimp only
  rw [hcommit]
  dsimp only
  simp only [if_true]
  unfold Ledger.save_entry
  rw [setTree_entriesGet]
  dsimp only
  rw [store_failing _ _ _ hfail]
  dsimp only
  simp only [Bool.false_eq_true, if_false, reduceIte]
  have hget1 : ((l.setTree tid t1).entriesInsert key
      ⟨key, v, some ⟨tid, idx, pb⟩,
        match l.entriesGet key with
        | some e => e.version + 1
        | none => 0⟩).getTree tid = some t1 := by
    rw [entriesInsert_getTree]
    exact getTree_setTree l tid t1 tree0 htree
  rw [hget1]
  refine ⟨_, rfl, ?_, ?_⟩
  · rw [getTree_setTree _ tid _ t1 hget1]
    simp only [Option.map_some']
    congr 1
    unfold Tree.get_leaves Tree.rollback MerkleTreeLib.rollbackLib MerkleTreeLib.leaves
    simp only [hhist, List.tail_cons]
    rfl
  · rw [setTree_entriesGet]
    exact entriesInsert_get_self _ _ _

/-- Concrete instantiation discharging the hypotheses of `claim_C10`: a
fresh ledger, a failing KV store; the commit returns none, the blocks tree
is back to no committed leaves, and the entry sits in the map at version
0. -/
theorem claim_C10_witness :
    ∃ l', Ledger.commit_with_identifier H2app toJsonOne Ledger.new keyA valA
        "blocks" storageBad = (l', storageBad, none) ∧
      (l'.getTree "blocks").map Tree.get_leaves =
        some (Tree.new "blocks").get_leaves ∧
      l'.entriesGet keyA = some ⟨keyA, valA, some ⟨"blocks", [0], []⟩,
        match Ledger.new.entriesGet keyA with
        | some e => e.version + 1
        | none => 0⟩ :=
  claim_C10 H2app toJsonOne Ledger.new keyA valA "blocks" storageBad
    (Tree.new "blocks") ⟨"blocks", ⟨[[keyA]], []⟩⟩ [] [0]
    (by decide) (by decide) (by decide)

/-- C4 (amended): every successful `commit_with_identifier` writes to the
KV store exactly `format_entry_value key value`, which is the JSON-shaped
string with the version field literally 0, whatever version was assigned to
the saved entry; the in-memory entry's version does rise (prior + 1 when
the key was present, else 0), but the persisted string's does not. -/
theorem claim_C4_amended (H2 : Leaf → Leaf → Leaf) (toJson : LedgerValue → String)
    (l : Ledger) (key : List Nat) (v : LedgerValue) (tid : String)
    (storage : Storage) (l' : Ledger) (storage' : Storage) (proof : LedgerProof)
    (h : Ledger.commit_with_identifier H2 toJson l key v tid storage =
      (l', storage', some proof)) :
    storage'.getValue key = some (Ledger.format_entry_value toJson key v) ∧
    Ledger.format_entry_value toJson key v =
      claimedPersistedString toJson key v 0 ∧
    (l'.entriesGet key).map LedgerEntry.version =
      some (match l.entriesGet key with
        | some e => e.version + 1
        | none => 0) := by
  unfold Ledger.commit_with_identifier at h
  rcases htree : l.getTree tid with _ | tree0
  · rw [htree] at h
    dsimp only at h
    exact absurd h (by simp)
  · rw [htree] at h
    dsimp only at h
    rcases hcommit : (tree0.insert key).commit H2 with ⟨t1, ok, pb, idx⟩
    rw [hcommit] at h
    dsimp only at h
    rcases ok with _ | _
    · simp only [Bool.false_eq_true, if_false] at h
      exact absurd h (by simp)
    · simp only [if_true] at h
      unfold Ledger.save_entry at h
      rw [setTree_entriesGet] at h
      dsimp only at h
      rcases hstore : Storage.store storage key
          (Ledger.format_entry_value toJson key v) with ⟨s2, stored⟩
      rw [hstore] at h
      dsimp only at h
      rcases stored with _ | _
      · simp only [Bool.false_eq_true, if_false] at h
        exact absurd h (by simp)
      · simp only [if_true, Prod.mk.injEq] at h
        obtain ⟨hl, hs, -⟩ := h
        subst hl hs
        refine ⟨?_, rfl, ?_⟩
        · unfold Storage.getValue
          rw [store_ok_data storage _ key _ hstore]
          simp [List.find?_cons]
        · rw [entriesInsert_get_self]
          rfl

/-- Concrete instantiation discharging the hypothesis of
`claim_C4_amended`: the second commit of the same key and value; the
persisted string carries version 0 while the entry's version is 1. -/
theorem claim_C4_witness :
    c4run2.2.1.getValue keyA =
      some (Ledger.format_entry_value toJsonOne keyA valA) ∧
    Ledger.format_entry_value toJsonOne keyA valA =
      claimedPersistedString toJsonOne keyA valA 0 ∧
    (c4run2.1.entriesGet keyA).map LedgerEntry.version = some 1 := by
  have happ := claim_C4_amended H2app toJsonOne c4run1.1 keyA valA "mining"
    c4run1.2.1 c4run2.1 c4run2.2.1 ⟨"mining", [0, 1], []⟩ (by decide)
  exact ⟨happ.1, happ.2.1, happ.2.2.trans (by decide)⟩

/-- C4, counterexample to the claim as stated: re-committing key `keyA`
succeeds and assigns version 1 to the saved entry, yet the string persisted
to the KV store ends in version 0, not the entry's version 1. -/
theorem claim_C4_counterexample :
    c4run2.2.2.isSome = true ∧
    (c4run2.1.entriesGet keyA).map LedgerEntry.version = some 1 ∧
    c4run2.2.1.getValue keyA ≠ some (claimedPersistedString toJsonOne keyA valA 1) ∧
    c4run2.2.1.getValue keyA = some (claimedPersistedString toJsonOne keyA valA 0) := by
  refine ⟨by decide, by decide, by decide, by decide⟩

/-- C5, failing input: two successful commits of distinct keys into the
accounts category.  Both entries sit in the map, yet `verify_entry` is
false for both: the first entry's stored proof is stale against the grown
tree (its empty proof cannot resupply the second leaf), and the second
entry's proof covers indices [0, 1] while `verify_entry` supplies the
single leaf `[key]`.  Both failures occur before any node hash is compared,
so they do not depend on the choice of `H2app` for the opaque node hash.
After the first commit alone the single entry still verifies, locating the
breakage at the second commit. -/
theorem claim_C5_bug :
    c5run1.2.2.isSome = true ∧ c5run2.2.2.isSome = true ∧
    (c5run2.1.entriesGet keyA).isSome = true ∧
    (c5run2.1.entriesGet keyB).isSome = true ∧
    c5run2.1.verify_entry H2app keyA = false ∧
    c5run2.1.verify_entry H2app keyB = false ∧
    c5run1.1.verify_entry H2app keyA = true := by
  refine ⟨by decide, by decide, by decide, by decide, by decide, by decide, by decide⟩

theorem processFrame_seen_mono (decodeB64 : String → Option String)
    (intake : String → String → Bool) (st : GossipState) (sender : Nat)
    (frame : String) (id : List Nat)
    (h : st.seen_messages.contains id = true) :
    ((processFrame decodeB64 intake st sender frame).1).seen_messages.contains id
      = true := by
  unfold processFrame
  split
  · exact h
  · split
    · exact h
    · split <;> (simp only [List.contains_cons, Bool.or_eq_true]; exact Or.inr h)

theorem processFrame_event_fresh (decodeB64 : String → Option String)
    (intake : String → String → Bool) (st st' : GossipState) (sender : Nat)
    (frame : String) (ev : FrameEvent) (relay : List Nat)
    (h : processFrame decodeB64 intake st sender frame = (st', some ev, relay)) :
    st.seen_messages.contains ev.msg_id = false ∧
    st'.seen_messages.contains ev.msg_id = true := by
  unfold processFrame at h
  split at h
  · exact absurd h (by simp)
  · rename_i msg_id payload heq
    split at h
    · exact absurd h (by simp)
    · rename_i hnotseen
      split at h
      · exact absurd h (by simp)
      · simp only [Prod.mk.injEq] at h
        obtain ⟨hst, hev, -⟩ := h
        injection hev with hev
        rw [← hst, ← hev]
        simp only [List.contains_cons]
        refine ⟨by simpa using hnotseen, by simp⟩

theorem processFrames_count_zero (decodeB64 : String → Option String)
    (intake : String → String → Bool) (frames : List (Nat × String)) :
    ∀ st id, st.seen_messages.contains id = true →
    ((processFrames decodeB64 intake st frames).2.countP
      (fun e => e.msg_id == id)) = 0 := by
  induction frames with
  | nil => intro st id h; rfl
  | cons f rest ih =>
    intro st id h
    unfold processFrames
    rcases hpf : processFrame decodeB64 intake st f.1 f.2 with ⟨st1, ev, rel⟩
    have hmono := processFrame_seen_mono decodeB64 intake st f.1 f.2 id h
    rw [hpf] at hmono
    dsimp only
    rw [List.countP_append]
    rcases ev with _ | e
    · simp only [Option.toList_none, List.countP_nil]
      simp [ih st1 id hmono]
    · have hfresh := processFrame_event_fresh decodeB64 intake st st1 f.1 f.2 e rel hpf
      have hne : (e.msg_id == id) = false := by
        by_cases hc : e.msg_id = id
        · rw [hc] at hfresh
          rw [hfresh.1] at h
          exact Bool.noConfusion h
        · simpa using hc
      simp only [Option.toList_some, List.countP_cons, hne]
      simp [ih st1 id hmono]

theorem processFrames_count_le_one (decodeB64 : String → Option String)
    (intake : String → String → Bool) (frames : List (Nat × String)) :
    ∀ st id, ((processFrames decodeB64 intake st frames).2.countP
      (fun e => e.msg_id == id)) ≤ 1 := by
  induction frames with
  | nil => intro st id; simp [processFrames]
  | cons f rest ih =>
    intro st id
    unfold processFrames
    rcases hpf : processFrame decodeB64 intake st f.1 f.2 with ⟨st1, ev, rel⟩
    dsimp only
    rw [List.countP_append]
    rcases ev with _ | e
    · simpa using ih st1 id
    · have hfresh := processFrame_event_fresh decodeB64 intake st st1 f.1 f.2 e rel hpf
      by_cases hc : e.msg_id = id
      · have hzero : ((processFrames decodeB64 intake st1 rest).2.countP
            (fun e => e.msg_id == id)) = 0 :=
          processFrames_count_zero decodeB64 intake rest st1 id (hc ▸ hfresh.2)
        simp [List.countP_cons, hzero, hc]
      · have hne : (e.msg_id == id) = false := by simpa using hc
        simp only [Option.toList_some, List.countP_cons, hne]
        simpa using ih st1 id

/-- C8: an inbound frame whose message id is already in `seen_messages` is
dropped with no intake invocation and no relay; a frame with a new id has
the id inserted, and — when its payload decodes to a well-formed
`category:data` message — is handed to Peer Intake exactly once, the
original frame being relayed to every peer except the sender exactly when
intake succeeded.  Over any frame sequence, no message id gives rise to
more than one intake invocation. -/
theorem claim_C8 (decodeB64 : String → Option String)
    (intake : String → String → Bool) (st : GossipState) (sender : Nat)
    (frame : String) (msg_id payload : List Nat)
    (hp : parseFrame frame = some (msg_id, payload)) :
    (st.seen_messages.contains msg_id = true →
      processFrame decodeB64 intake st sender frame = (st, none, [])) ∧
    (st.seen_messages.contains msg_id = false →
      ((processFrame decodeB64 intake st sender frame).1).seen_messages =
        msg_id :: st.seen_messages ∧
      (∀ identifier inner, parsePayload decodeB64 payload = some (identifier, inner) →
        processFrame decodeB64 intake st sender frame =
          ({ st with seen_messages := msg_id :: st.seen_messages },
            some ⟨msg_id, identifier, inner, intake identifier inner⟩,
            if intake identifier inner then st.peers.filter (fun a => a ≠ sender)
            else []))) ∧
    (∀ frames id, ((processFrames decodeB64 intake st frames).2.countP
      (fun e => e.msg_id == id)) ≤ 1) := by
  refine ⟨?_, ?_, fun frames id => processFrames_count_le_one decodeB64 intake frames st id⟩
  · intro hseen
    unfold processFrame
    rw [hp]
    simp only [hseen, reduceIte]
  · intro hnew
    have h0 : processFrame decodeB64 intake st sender frame =
        (match parsePayload decodeB64 payload with
          | none => ({ st with seen_messages := msg_id :: st.seen_messages }, none, [])
          | some (identifier, inner) =>
            ({ st with seen_messages := msg_id :: st.seen_messages },
              some ⟨msg_id, identifier, inner, intake identifier inner⟩,
              if intake identifier inner then st.peers.filter (fun a => a ≠ sender)
              else [])) := by
      unfold processFrame
      rw [hp]
      simp only [hnew, Bool.false_eq_true, if_false]
    constructor
    · rw [h0]
      cases hx : parsePayload decodeB64 payload with
      | none => rfl
      | some p => cases p with | mk identifier inner => rfl
    · intro identifier inner hpp
      rw [h0, hpp]

/-- Concrete instantiation discharging the hypotheses of `claim_C8`: a
well-formed `blocks:x` frame with a fresh id, an always-succeeding intake,
peers \x7b1, 2, 3\x7d with sender 1: the id is recorded, intake is invoked, and
the frame is relayed to peers 2 and 3 only. -/
theorem claim_C8_witness :
    processFrame decIdW intakeTrueW gossipW 1 frameW =
      ({ gossipW with seen_messages := [msgIdW] },
        some ⟨msgIdW, "blocks", "x", true⟩, [2, 3]) := by
  have happ := ((claim_C8 decIdW intakeTrueW gossipW 1 frameW msgIdW
    (asciiBytes "blocks:x") (by decide)).2.1 (by decide)).2 "blocks" "x" (by decide)
  exact happ.trans (by decide)

/-- C9, counterexample to the claim as stated: on this input the ledger
commit yields none, yet `process_peer_state` still returns an
acknowledgement (`Except.ok`), having inserted the entry and stored it;
the claim's "returning an error when that commit yields none" fails (no
`get_key` computation is involved anywhere on the path). -/
theorem claim_C9_counterexample :
    (oldOpsW.commit_with_identifier oldLedgerW "blocks" peerKeyW).2 = none ∧
    process_peer_state oldOpsW oldLedgerW storageOk [7] "blocks" =
      some (⟨[(peerKeyW, ⟨peerKeyW, List.replicate 256 0, none, 0⟩)], 0⟩,
        ⟨[(peerKeyW, "")], false⟩, Except.ok peerKeyW) := by
  refine ⟨rfl, rfl⟩

/-- C9 (amended): peer intake base64-decodes the message (error on
malformed base64) and binary-decodes the result (error on malformed
input); it keys the state by the decoded `hash` field, returns an error
when an existing entry decodes to the same hash; it invokes the ledger
commit but ignores the commit's result; it then inserts the entry,
regenerates proofs, and errors either when entry verification fails
(removing the entry and rolling back) or when the KV write fails (removing
the entry, storage unchanged); otherwise it acknowledges with the hash
key. -/
theorem claim_C9_amended (decodeB64Bytes : String → Option (List Nat))
    (O : OldLedgerOps) (L : OldLedger) (S : Storage)
    (data : List Nat) (id : String) :
    (∀ msg, decodeB64Bytes msg = none →
      receive_from_peer decodeB64Bytes O msg L S id =
        some (L, S, Except.error "Failed to decode base64 message")) ∧
    (∀ msg decoded, decodeB64Bytes msg = some decoded →
      receive_from_peer decodeB64Bytes O msg L S id =
        handle_peer_message O L S decoded id) ∧
    (O.decode_block data = none →
      process_peer_state O L S data id =
        some (L, S, Except.error "Failed to decode block")) ∧
    (∀ ns, O.decode_block data = some ns → peer_duplicate O L ns = true →
      process_peer_state O L S data id =
        some (L, S, Except.error (id ++ " already exists in ledger"))) ∧
    (process_peer_state O L S data id =
      process_peer_state (ignoreCommitResult O) L S data id) ∧
    (∀ ns ser, O.decode_block data = some ns → peer_duplicate O L ns = false →
      O.encode_block ns = some ser → ns.hash.length = 32 →
      (let L1 := (O.commit_with_identifier L id ns.hash).1
       let L2 := O.generate_proofs
         { L1 with entries := (ns.hash, ⟨ns.hash, ser, none, 0⟩) :: L1.entries } id
       (O.verify_entry L2 ns.hash = false →
         process_peer_state O L S data id =
           some (O.rollback_with_identifier
             { L2 with entries := L2.entries.filter (fun p => p.1 ≠ ns.hash) }
             id ns.hash, S, Except.error "Block verification failed")) ∧
       (O.verify_entry L2 ns.hash = true → S.failing = false →
         process_peer_state O L S data id =
           some (L2, { S with data := (ns.hash, O.format_entry L2 ns.hash) :: S.data },
             Except.ok ns.hash)) ∧
       (O.verify_entry L2 ns.hash = true → S.failing = true →
         process_peer_state O L S data id =
           some ({ L2 with entries := L2.entries.filter (fun p => p.1 ≠ ns.hash) },
             S, Except.error "Failed to store block in database")))) := by
  refine ⟨?_, ?_, ?_, ?_, ?_, ?_⟩
  · intro msg hb64
    unfold receive_from_peer
    rw [hb64]
  · intro msg decoded hb64
    unfold receive_from_peer
    rw [hb64]
  · intro hdec
    unfold process_peer_state
    rw [hdec]
  · intro ns hdec hdup
    unfold process_peer_state
    rw [hdec]
    dsimp only
    rw [hdup]
    rfl
  · rfl
  · intro ns ser hdec hdup henc hlen
    unfold process_peer_state
    rw [hdec]
    dsimp only
    rw [hdup]
    simp only [Bool.false_eq_true, if_false]
    rw [henc]
    dsimp only
    rw [if_pos hlen]
    refine ⟨?_, ?_, ?_⟩
    · intro hver
      rw [hver]
      rfl
    · intro hver hfail
      rw [if_neg (not_not_intro hver)]
      unfold Storage.store
      rw [hfail]
      simp only [Bool.false_eq_true, if_false]
      rfl
    · intro hver hfail
      rw [if_neg (not_not_intro hver)]
      unfold Storage.store
      rw [hfail]
      rfl

set_option maxRecDepth 4000 in
/-- Concrete instantiation discharging the hypotheses of
`claim_C9_amended`: with the counterexample's operations, intake
acknowledges the decoded hash. -/
theorem claim_C9_witness :
    process_peer_state oldOpsW oldLedgerW storageOk [7] "blocks" =
      some (oldOpsW.generate_proofs
          ⟨[(peerKeyW, ⟨peerKeyW, List.replicate 256 0, none, 0⟩)],
            (oldOpsW.commit_with_identifier oldLedgerW "blocks" peerKeyW).1.internal⟩
          "blocks",
        ⟨[(peerKeyW, oldOpsW.format_entry
            (oldOpsW.generate_proofs
              ⟨[(peerKeyW, ⟨peerKeyW, List.replicate 256 0, none, 0⟩)],
                (oldOpsW.commit_with_identifier oldLedgerW "blocks" peerKeyW).1.internal⟩
              "blocks") peerKeyW)], false⟩,
        Except.ok peerKeyW) := by
  have happ := ((claim_C9_amended (fun _ => some [7]) oldOpsW oldLedgerW storageOk
    [7] "blocks").2.2.2.2.2
    ⟨peerKeyW, 0⟩ (List.replicate 256 0) (by decide) (by decide) (by decide)
    (by decide)).2.1 (by decide) (by decide)
  exact happ.trans rfl

end Datschain
